import Mathlib

/-!
Shallow embedding of the LWNX protocol core (`src/lwnx.rs`).

Machine integers are embedded as `Nat` (for `u8`/`u16` values, with explicit
`% 2^16` where the Rust code truncates) and `Int` (for the `i32` fields
`size`, `payload_size` and `command_retries`).  Byte buffers are `List Nat`;
the `Response` receive buffer is a length-1024 list mirroring `[u8; 1024]`.
Wall-clock time (`Instant::now` / `elapsed`) is not embeddable; the polling
loops of `recv_packet` and `handle_managed_cmd` are embedded with an explicit
iteration budget: `fuel` is the number of times the while-condition
`elapsed < timeout_time` evaluates to true during one poll, and the oracle
`polls : Nat → Nat` gives that count for each retry attempt.  The transport
trait `UserPlatform` is embedded as an oracle giving the result of the k-th
`write_callback` / `read_callback` invocation.
-/

/-- Error enum from `src/lwnx.rs` (`LwnxError`). -/
inductive LwnxError where
  | DeviceError
  | ReadError
  | WriteError
  | DeviceClosed
  | PacketTimeout
  | CommandRetriesExhausted
deriving DecidableEq, Repr

deriving instance DecidableEq for Except

/-- One iteration of the CRC loop body in `create_crc` (`src/lwnx.rs:23-33`).
All values are `u16`, so left shifts truncate modulo 2^16. -/
def crcStep (crc b : Nat) : Nat :=
  let code1 := (crc >>> 8) ^^^ b
  let code2 := code1 ^^^ (code1 >>> 4)
  let crc1 := ((crc <<< 8) % 65536) ^^^ code2
  let code3 := (code2 <<< 5) % 65536
  let crc2 := crc1 ^^^ code3
  let code4 := (code3 <<< 7) % 65536
  crc2 ^^^ code4

/-- `create_crc` (`src/lwnx.rs:20-36`): CRC16 register initialized to 0,
folding `crcStep` over the input bytes. -/
def create_crc (data : List Nat) : Nat :=
  data.foldl crcStep 0

/-- `create_packet_bytes` (`src/lwnx.rs:39-62`) as a pure function returning
the encoded wire bytes: start marker, little-endian flags
`(payload_length << 6) | write_bit` (cast to `u16`, hence `% 65536`),
command id, data, and little-endian CRC over everything preceding it. -/
def create_packet_bytes (command_id : Nat) (write : Bool) (data : List Nat) :
    List Nat :=
  let payload_length := 1 + data.length
  let flags : Nat :=
    match write with
    | true => ((payload_length <<< 6) ||| 1) % 65536
    | false => (payload_length <<< 6) % 65536
  let header := [0xAA, flags % 256, flags / 256, command_id]
  let crc := create_crc (header ++ data)
  header ++ data ++ [crc % 256, crc / 256]

/-- `ResponseParseState` (`src/lwnx.rs:64-69`). -/
inductive ResponseParseState where
  | StartByte
  | PayloadSize0
  | PayloadSize1
  | Payload
deriving DecidableEq, Repr

/-- `Response` (`src/lwnx.rs:71-76`): 1024-byte receive buffer, current fill
size, bytes still expected, and the parse-state tag.  `size` and
`payload_size` are `i32` in the source, embedded as `Int`. -/
structure Response where
  data : List Nat
  size : Int
  payload_size : Int
  parse_state : ResponseParseState
deriving DecidableEq, Repr

/-- `Response::new` (`src/lwnx.rs:79-86`). -/
def Response.new : Response :=
  ⟨List.replicate 1024 0, 0, 0, .StartByte⟩

/-- `Response::reset` (`src/lwnx.rs:88-92`): clears the counters and state,
leaving the buffer contents alone. -/
def Response.reset (r : Response) : Response :=
  { r with size := 0, payload_size := 0, parse_state := .StartByte }

/-- `Response::get_command` (`src/lwnx.rs:94-96`): the stored command byte. -/
def Response.get_command (r : Response) : Nat :=
  r.data.getD 3 0

/-- `Response::get_uint32_data` (`src/lwnx.rs:110-112`):
`u32::from_le_bytes` over buffer bytes 4..8. -/
def Response.get_uint32_data (r : Response) : Nat :=
  r.data.getD 4 0 + r.data.getD 5 0 * 256 + r.data.getD 6 0 * 65536 +
    r.data.getD 7 0 * 16777216

/-- `Response::parse_data` (`src/lwnx.rs:114-157`): feed one byte, returning
the updated parser and whether a checksum-valid frame just completed.
In the `PayloadSize1` state the payload size is decoded from the two stored
flag bytes; both are nonnegative `i32` values below 2^16, so the `i32`
arithmetic is embedded as `Nat` arithmetic coerced into `Int`. -/
def Response.parse_data (r : Response) (b : Nat) : Response × Bool :=
  match r.parse_state with
  | .StartByte =>
      if b = 0xAA then
        ({ r with parse_state := .PayloadSize0, data := r.data.set 0 b }, false)
      else
        (r, false)
  | .PayloadSize0 =>
      ({ r with parse_state := .PayloadSize1, data := r.data.set 1 b }, false)
  | .PayloadSize1 =>
      let d := r.data.set 2 b
      let ps : Nat := ((d.getD 1 0 ||| (d.getD 2 0 <<< 8)) >>> 6) + 2
      let r' : Response :=
        { r with data := d, payload_size := (ps : Int), size := 3,
                 parse_state := .Payload }
      if 1019 < r'.payload_size then
        ({ r' with parse_state := .StartByte }, false)
      else
        (r', false)
  | .Payload =>
      let d := r.data.set r.size.toNat b
      let size' := r.size + 1
      let ps' := r.payload_size - 1
      if ps' = 0 then
        let crc := d.getD (size' - 2).toNat 0 ||| (d.getD (size' - 1).toNat 0 <<< 8)
        let verify_crc := create_crc (d.take (size' - 2).toNat)
        ({ r with data := d, size := size', payload_size := ps',
                  parse_state := .StartByte },
         decide (crc = verify_crc))
      else
        ({ r with data := d, size := size', payload_size := ps',
                  parse_state := .Payload }, false)

/-- Feed a list of bytes into the parser one at a time, returning the final
parser state and the list of booleans `parse_data` returned, in order. -/
def parseRun (r : Response) : List Nat → Response × List Bool
  | [] => (r, [])
  | b :: rest =>
      let s := r.parse_data b
      let t := parseRun s.1 rest
      (t.1, s.2 :: t.2)

/-- The remaining-byte count that `parse_data` decodes in state
`PayloadSize1` from the two stored length bytes:
`((low | high << 8) >> 6) + 2`. -/
def decodedRemaining (d : List Nat) : Nat :=
  ((d.getD 1 0 ||| (d.getD 2 0 <<< 8)) >>> 6) + 2

/-- The buffer index (if any) that `parse_data` writes the incoming byte to:
index 0 in `StartByte` (only for the start marker), 1 and 2 for the two
length bytes, and the current `size` while reading the payload. -/
def parse_write_index (r : Response) (b : Nat) : Option Nat :=
  match r.parse_state with
  | .StartByte => if b = 0xAA then some 0 else none
  | .PayloadSize0 => some 1
  | .PayloadSize1 => some 2
  | .Payload => some r.size.toNat

/-- The transport capability (`UserPlatform`, `src/lwnx.rs:160-164`), embedded
as an oracle over call indices: `writeResult k` is the outcome of the k-th
`write_callback` call (`some n` = `Ok(n)` bytes reported written, `none` =
any `Err`), and `readResult k` the outcome of the k-th `read_callback` call
(`some bytes` = `Ok` with those bytes in the 1-byte buffer, `none` = any
`Err`). -/
structure Platform where
  writeResult : Nat → Option Nat
  readResult : Nat → Option (List Nat)

/-- The observable I/O trace of a session: the buffers passed to every
`write_callback` call so far (whose length indexes the next write) and the
number of `read_callback` calls so far. -/
structure IOState where
  writeLog : List (List Nat)
  reads : Nat
deriving DecidableEq, Repr

/-- `cmd_write` (`src/lwnx.rs:209-218`): invoke the transport write; an `Ok`
count is passed through unchecked, any transport error becomes
`WriteError`. -/
def cmd_write (p : Platform) (st : IOState) (buffer : List Nat) :
    Except LwnxError Nat × IOState :=
  let st' := { st with writeLog := st.writeLog ++ [buffer] }
  match p.writeResult st.writeLog.length with
  | some n => (.ok n, st')
  | none => (.error .WriteError, st')

/-- The polling while-loop of `recv_packet` (`src/lwnx.rs:233-243`).  `fuel`
is the number of times the wall-clock condition
`elapsed < timeout_time` still evaluates to true (the source bounds the loop
by real time, which the embedding replaces by this oracle-supplied count);
when it reaches 0 the loop exits with `PacketTimeout` (`src/lwnx.rs:245`).
Each iteration performs one `cmd_read` (any transport error becomes
`ReadError`, `src/lwnx.rs:197-207`), feeds a received byte to the parser,
and returns `Ok` when a checksum-valid frame with the requested command id
completes. -/
def recv_loop (p : Platform) (command_id : Nat) :
    Response → IOState → Nat → Except LwnxError Unit × Response × IOState
  | r, st, 0 => (.error .PacketTimeout, r, st)
  | r, st, fuel + 1 =>
    match p.readResult st.reads with
    | none => (.error .ReadError, r, { st with reads := st.reads + 1 })
    | some bytes =>
      let st' := { st with reads := st.reads + 1 }
      if 0 < bytes.length then
        let s := r.parse_data (bytes.getD 0 0)
        if s.2 = true ∧ s.1.get_command = command_id then (.ok (), s.1, st')
        else recv_loop p command_id s.1 st' fuel
      else recv_loop p command_id r st' fuel

/-- `recv_packet` (`src/lwnx.rs:220-246`): reset the response, then poll. -/
def recv_packet (p : Platform) (command_id : Nat) (r : Response) (st : IOState)
    (fuel : Nat) : Except LwnxError Unit × Response × IOState :=
  recv_loop p command_id r.reset st fuel

/-- The retry for-loop of `handle_managed_cmd` (`src/lwnx.rs:258-270`): on
each iteration write the packet (propagating `WriteError`), then poll;
`Ok` returns, `PacketTimeout` moves to the next retry, any other error
propagates; exhausting the iterations yields `CommandRetriesExhausted`
(`src/lwnx.rs:272`).  `polls i` is the iteration budget of the i-th poll
(see `recv_loop`). -/
def handle_loop (p : Platform) (polls : Nat → Nat) (command_id : Nat)
    (packet : List Nat) :
    Response → IOState → Nat → Except LwnxError Unit × Response × IOState
  | r, st, 0 => (.error .CommandRetriesExhausted, r, st)
  | r, st, n + 1 =>
    match cmd_write p st packet with
    | (.error e, st1) => (.error e, r, st1)
    | (.ok _, st1) =>
      match recv_packet p command_id r st1 (polls 0) with
      | (.ok u, r2, st2) => (.ok u, r2, st2)
      | (.error .PacketTimeout, r2, st2) =>
          handle_loop p (fun i => polls (i + 1)) command_id packet r2 st2 n
      | (.error e, r2, st2) => (.error e, r2, st2)

/-- `handle_managed_cmd` (`src/lwnx.rs:248-273`): encode the packet once and
run the retry loop `command_retries` times (`0..n` on the `i32` retry count,
hence `Int.toNat`). -/
def handle_managed_cmd (p : Platform) (polls : Nat → Nat) (command_id : Nat)
    (write : Bool) (write_data : List Nat) (command_retries : Int)
    (r : Response) (st : IOState) : Except LwnxError Unit × Response × IOState :=
  handle_loop p polls command_id (create_packet_bytes command_id write write_data)
    r st command_retries.toNat

/-- `cmd_read_u32` (`src/lwnx.rs:320-327`): dispatch on a fresh `Response`,
then decode buffer bytes 4..8 as a little-endian `u32`, unconditionally. -/
def cmd_read_u32 (p : Platform) (polls : Nat → Nat) (command_id : Nat)
    (command_retries : Int) (st : IOState) : Except LwnxError Nat × IOState :=
  match handle_managed_cmd p polls command_id false [] command_retries
      Response.new st with
  | (.ok _, r, st') => (.ok r.get_uint32_data, st')
  | (.error e, _, st') => (.error e, st')

/-- The string-length scan of `cmd_read_string` (`src/lwnx.rs:336-342`):
index of the first zero byte, `none` if there is none (in which case the
source leaves `str_len` at its initial value 0). -/
def firstZeroIdx : List Nat → Option Nat
  | [] => none
  | c :: rest => if c = 0 then some 0 else (firstZeroIdx rest).map (· + 1)

/-- Modelled from the documented behavior of `std::str::from_utf8` (standard
library, not part of this repository): whether a byte sequence is valid
UTF-8. -/
def isValidUtf8 : List Nat → Bool
  | [] => true
  | b :: rest =>
    if b ≤ 0x7F then isValidUtf8 rest
    else
      match rest with
      | [] => false
      | c1 :: r1 =>
        if 0xC2 ≤ b ∧ b ≤ 0xDF then
          if 0x80 ≤ c1 ∧ c1 ≤ 0xBF then isValidUtf8 r1 else false
        else
          match r1 with
          | [] => false
          | c2 :: r2 =>
            if 0xE0 ≤ b ∧ b ≤ 0xEF then
              if (if b = 0xE0 then 0xA0 ≤ c1 ∧ c1 ≤ 0xBF
                  else if b = 0xED then 0x80 ≤ c1 ∧ c1 ≤ 0x9F
                  else 0x80 ≤ c1 ∧ c1 ≤ 0xBF) ∧ 0x80 ≤ c2 ∧ c2 ≤ 0xBF then
                isValidUtf8 r2
              else false
            else
              match r2 with
              | [] => false
              | c3 :: r3 =>
                if 0xF0 ≤ b ∧ b ≤ 0xF4 then
                  if (if b = 0xF0 then 0x90 ≤ c1 ∧ c1 ≤ 0xBF
                      else if b = 0xF4 then 0x80 ≤ c1 ∧ c1 ≤ 0x8F
                      else 0x80 ≤ c1 ∧ c1 ≤ 0xBF) ∧
                      (0x80 ≤ c2 ∧ c2 ≤ 0xBF) ∧ (0x80 ≤ c3 ∧ c3 ≤ 0xBF) then
                    isValidUtf8 r3
                  else false
                else false

/-- `cmd_read_string` (`src/lwnx.rs:329-347`): dispatch on a fresh
`Response`, scan buffer bytes 4..20 for the first zero byte (`str_len`
defaults to 0), then decode the `str_len` bytes at offset 4 as UTF-8.  The
source calls `.unwrap()` on the decode: an invalid-UTF-8 slice panics, which
the embedding renders as the `none` result; the `String` result is
represented by its UTF-8 byte content. -/
def cmd_read_string (p : Platform) (polls : Nat → Nat) (command_id : Nat)
    (command_retries : Int) (st : IOState) :
    Option (Except LwnxError (List Nat)) × IOState :=
  match handle_managed_cmd p polls command_id false [] command_retries
      Response.new st with
  | (.error e, _, st') => (some (.error e), st')
  | (.ok _, r, st') =>
    let str_len := (firstZeroIdx ((r.data.drop 4).take 16)).getD 0
    let bytes := (r.data.drop 4).take str_len
    if isValidUtf8 bytes then (some (.ok bytes), st') else (none, st')

/-- Sequential search for the first byte at which `parse_data` reports a
checksum-valid frame whose command byte equals `command_id` (the success
condition of the `recv_packet` loop), returning the parser at that point
and the number of bytes consumed. -/
def firstMatch (command_id : Nat) (r : Response) :
    List Nat → Option (Response × Nat)
  | [] => none
  | b :: rest =>
    let s := r.parse_data b
    if s.2 = true ∧ s.1.get_command = command_id then some (s.1, 1)
    else (firstMatch command_id s.1 rest).map (fun q => (q.1, q.2 + 1))

/-- The invariant maintained by the parser: the buffer keeps its 1024-byte
capacity, and while reading a payload the fill size and the remaining count
stay within the bounds established by the length guard. -/
def ParserInv (r : Response) : Prop :=
  r.data.length = 1024 ∧
    (r.parse_state = .Payload →
      3 ≤ r.size ∧ 1 ≤ r.payload_size ∧ r.size + r.payload_size ≤ 1022)

/-! ### Arithmetic helper lemmas -/

/-- Recombining the two little-endian bytes of a 16-bit value, the way the
parser does at `src/lwnx.rs:144-145`, yields the value back. -/
theorem lor_bytes (x : Nat) : x % 256 ||| (x / 256) <<< 8 = x := by
  apply Nat.eq_of_testBit_eq
  intro i
  rw [Nat.testBit_lor]
  rcases Nat.lt_or_ge i 8 with h | h
  · have h1 : (x % 256).testBit i = x.testBit i := by
      have := Nat.testBit_mod_two_pow x 8 i
      rw [show (256 : Nat) = 2 ^ 8 by norm_num]
      simp [this, h]
    have h2 : ((x / 256) <<< 8).testBit i = false := by
      rw [Nat.testBit_shiftLeft]
      simp [Nat.not_le.mpr h]
    simp [h1, h2]
  · have h1 : (x % 256).testBit i = false := by
      apply Nat.testBit_lt_two_pow
      calc x % 256 < 256 := Nat.mod_lt _ (by norm_num)
        _ = 2 ^ 8 := by norm_num
        _ ≤ 2 ^ i := Nat.pow_le_pow_right (by norm_num) h
    have h2 : ((x / 256) <<< 8).testBit i = x.testBit i := by
      rw [Nat.testBit_shiftLeft]
      have hd : x / 256 = x >>> 8 := by
        rw [Nat.shiftRight_eq_div_pow]
      rw [hd, Nat.testBit_shiftRight]
      have : 8 + (i - 8) = i := by omega
      simp [h, this]
    simp [h1, h2]

/-- Shifting the flags field right by six bits recovers the payload length
even with the write bit set. -/
theorem lor_one_shiftRight (pl : Nat) : (pl <<< 6 ||| 1) >>> 6 = pl := by
  apply Nat.eq_of_testBit_eq
  intro i
  rw [Nat.testBit_shiftRight, Nat.testBit_lor, Nat.testBit_shiftLeft]
  have h1 : Nat.testBit 1 (6 + i) = false := by
    apply Nat.testBit_lt_two_pow
    calc (1 : Nat) < 2 ^ 1 := by norm_num
      _ ≤ 2 ^ (6 + i) := Nat.pow_le_pow_right (by norm_num) (by omega)
  have h2 : 6 + i - 6 = i := by omega
  simp [h1, h2]

/-- Shifting the flags field right by six bits recovers the payload length
when the write bit is clear. -/
theorem shiftLeft_shiftRight_six (pl : Nat) : pl <<< 6 >>> 6 = pl := by
  rw [Nat.shiftLeft_eq, Nat.shiftRight_eq_div_pow]
  exact Nat.mul_div_cancel pl (by norm_num)

/-- One CRC step keeps the register within 16 bits when fed a byte. -/
theorem crcStep_lt (crc b : Nat) (h1 : crc < 65536) (h2 : b < 256) :
    crcStep crc b < 65536 := by
  unfold crcStep
  have e16 : (65536 : Nat) = 2 ^ 16 := by norm_num
  have e8 : (256 : Nat) = 2 ^ 8 := by norm_num
  have hc1 : (crc >>> 8) ^^^ b < 2 ^ 8 := by
    apply Nat.xor_lt_two_pow _ (e8 ▸ h2)
    rw [Nat.shiftRight_eq_div_pow]
    omega
  have hc2 : ((crc >>> 8) ^^^ b) ^^^ (((crc >>> 8) ^^^ b) >>> 4) < 2 ^ 8 := by
    apply Nat.xor_lt_two_pow hc1
    rw [Nat.shiftRight_eq_div_pow]
    omega
  have hcrc1 : ((crc <<< 8) % 65536) ^^^ (((crc >>> 8) ^^^ b) ^^^ (((crc >>> 8) ^^^ b) >>> 4)) < 2 ^ 16 := by
    apply Nat.xor_lt_two_pow
    · rw [← e16]; exact Nat.mod_lt _ (by norm_num)
    · calc _ < 2 ^ 8 := hc2
        _ ≤ 2 ^ 16 := Nat.pow_le_pow_right (by norm_num) (by norm_num)
  rw [e16] at *
  apply Nat.xor_lt_two_pow
  · apply Nat.xor_lt_two_pow hcrc1
    exact e16 ▸ Nat.mod_lt _ (by norm_num)
  · exact e16 ▸ Nat.mod_lt _ (by norm_num)

/-- The CRC of a byte sequence fits in 16 bits. -/
theorem create_crc_lt (l : List Nat) (h : ∀ b ∈ l, b < 256) :
    create_crc l < 65536 := by
  unfold create_crc
  have aux : ∀ (l : List Nat) (acc : Nat), acc < 65536 → (∀ b ∈ l, b < 256) →
      List.foldl crcStep acc l < 65536 := by
    intro l
    induction l with
    | nil => intro acc hacc _; simpa using hacc
    | cons b rest ih =>
      intro acc hacc hb
      rw [List.foldl_cons]
      exact ih _ (crcStep_lt _ _ hacc (hb b (by simp)))
        (fun c hc => hb c (by simp [hc]))
  exact aux l 0 (by norm_num) h

/-! ### List helper lemmas -/

/-- Setting the element just past a known prefix. -/
theorem set_append_cons (P : List Nat) (q b : Nat) (Q : List Nat) :
    (P ++ q :: Q).set P.length b = P ++ b :: Q := by
  induction P with
  | nil => rfl
  | cons p P ih => simp [List.set, ih]

/-- A scan that meets no zero byte reports no index. -/
theorem firstZeroIdx_eq_none (l : List Nat) (h : ∀ b ∈ l, b ≠ 0) :
    firstZeroIdx l = none := by
  induction l with
  | nil => rfl
  | cons c rest ih =>
    have hc : c ≠ 0 := h c (by simp)
    simp [firstZeroIdx, hc, ih (fun b hb => h b (by simp [hb]))]

/-! ### Parser run lemmas -/

/-- `Response.reset` in explicit form. -/
theorem Response.reset_eq (r : Response) :
    r.reset = ⟨r.data, 0, 0, .StartByte⟩ := rfl

/-- Splitting a parser run over an append. -/
theorem parseRun_append (r : Response) (xs ys : List Nat) :
    parseRun r (xs ++ ys)
      = ((parseRun (parseRun r xs).1 ys).1,
          (parseRun r xs).2 ++ (parseRun (parseRun r xs).1 ys).2) := by
  induction xs generalizing r with
  | nil => simp [parseRun]
  | cons b xs ih => simp [parseRun, ih]

/-- In the initial state, bytes other than the `0xAA` start marker are
discarded without a state change or a completion signal. -/
theorem parseRun_skip (xs : List Nat) (r : Response)
    (hstate : r.parse_state = .StartByte) (hxs : ∀ b ∈ xs, b ≠ 0xAA) :
    parseRun r xs = (r, List.replicate xs.length false) := by
  induction xs with
  | nil => simp [parseRun]
  | cons b xs ih =>
    have hb : b ≠ 0xAA := hxs b (by simp)
    have hstep : r.parse_data b = (r, false) := by
      unfold Response.parse_data
      rw [hstate]
      simp [hb]
    simp [parseRun, hstep, ih (fun c hc => hxs c (by simp [hc])),
      List.replicate_succ]

/-- While reading a payload whose remaining count exceeds the bytes fed,
each byte is appended at the fill position and the count decremented,
with no completion signal. -/
theorem parseRun_payload (bs : List Nat) :
    ∀ (P Q : List Nat) (k : Int), 1 ≤ k → bs.length ≤ Q.length →
      parseRun ⟨P ++ Q, (P.length : Int), (bs.length : Int) + k, .Payload⟩ bs
        = (⟨P ++ bs ++ Q.drop bs.length, ((P.length + bs.length : Nat) : Int),
            k, .Payload⟩,
           List.replicate bs.length false) := by
  induction bs with
  | nil =>
    intro P Q k hk hlen
    simp [parseRun]
  | cons b bs ih =>
    intro P Q k hk hlen
    obtain ⟨q, Q', rfl⟩ : ∃ q Q', Q = q :: Q' := by
      cases Q with
      | nil => simp at hlen
      | cons q Q' => exact ⟨q, Q', rfl⟩
    have hstep :
        Response.parse_data ⟨P ++ q :: Q', (P.length : Int),
            ((b :: bs).length : Int) + k, .Payload⟩ b
          = (⟨P ++ b :: Q', (P.length : Int) + 1, (bs.length : Int) + k,
              .Payload⟩, false) := by
      unfold Response.parse_data
      have hset : (P ++ q :: Q').set ((P.length : Int)).toNat b = P ++ b :: Q' := by
        rw [Int.toNat_ofNat]
        exact set_append_cons P q b Q'
      have hps : ((b :: bs).length : Int) + k - 1 = (bs.length : Int) + k := by
        simp
        ring
      simp only [hset, hps]
      rw [if_neg (by omega)]
    have hlen' : bs.length ≤ Q'.length := by
      simpa using hlen
    have hres := ih (P ++ [b]) Q' k hk hlen'
    have hcast : ((P ++ [b]).length : Int) = (P.length : Int) + 1 := by
      simp
    rw [hcast] at hres
    have hdata0 : P ++ [b] ++ Q' = P ++ b :: Q' := by simp
    rw [hdata0] at hres
    have hdata : P ++ [b] ++ bs ++ Q'.drop bs.length
        = P ++ b :: bs ++ (q :: Q').drop (bs.length + 1) := by
      simp
    rw [hdata] at hres
    have hsize : (((P ++ [b]).length + bs.length : Nat) : Int)
        = ((P.length + (bs.length + 1) : Nat) : Int) := by
      push_cast
      simp
      ring
    rw [hsize] at hres
    show (let s := Response.parse_data _ b;
          let t := parseRun s.1 bs;
          (t.1, s.2 :: t.2))
        = _
    rw [hstep]
    simp only [hres, List.length_cons, List.replicate_succ]

/-- From the initial state, a start marker followed by the two length bytes
stores them, decodes the remaining count, and enters the payload state,
provided the decoded count passes the overflow guard. -/
theorem parseRun_header (f0 f1 : Nat) (B : List Nat) (s q : Int)
    (hB : 3 ≤ B.length)
    (hguard : ((f0 ||| (f1 <<< 8)) >>> 6) + 2 ≤ 1019) :
    parseRun ⟨B, s, q, .StartByte⟩ [0xAA, f0, f1]
      = (⟨0xAA :: f0 :: f1 :: B.drop 3, 3,
          ((((f0 ||| (f1 <<< 8)) >>> 6) + 2 : Nat) : Int), .Payload⟩,
         [false, false, false]) := by
  obtain ⟨b0, B0, rfl⟩ : ∃ b0 B0, B = b0 :: B0 := by
    cases B with
    | nil => simp at hB
    | cons x xs => exact ⟨x, xs, rfl⟩
  obtain ⟨b1, B1, rfl⟩ : ∃ b1 B1, B0 = b1 :: B1 := by
    cases B0 with
    | nil => simp at hB
    | cons x xs => exact ⟨x, xs, rfl⟩
  obtain ⟨b2, B2, rfl⟩ : ∃ b2 B2, B1 = b2 :: B2 := by
    cases B1 with
    | nil => simp at hB
    | cons x xs => exact ⟨x, xs, rfl⟩
  have hg : ¬ ((1019 : Int) <
      (((f0 ||| (f1 <<< 8)) >>> 6 : Nat) : Int) + 2) := by
    omega
  simp [parseRun, Response.parse_data, List.set, hg]

/-- The last expected byte of a frame triggers the checksum comparison and
returns the parser to the initial state. -/
theorem parse_data_last (P : List Nat) (q b : Nat) (Q : List Nat) :
    Response.parse_data ⟨P ++ q :: Q, (P.length : Int), 1, .Payload⟩ b
      = (⟨P ++ b :: Q, (P.length : Int) + 1, 0, .StartByte⟩,
         decide ((P ++ b :: Q).getD (P.length - 1) 0 |||
             ((P ++ b :: Q).getD P.length 0 <<< 8)
           = create_crc ((P ++ b :: Q).take (P.length - 1)))) := by
  unfold Response.parse_data
  have hset : (P ++ q :: Q).set ((P.length : Int)).toNat b = P ++ b :: Q := by
    rw [Int.toNat_ofNat]
    exact set_append_cons P q b Q
  have hps : (1 : Int) - 1 = 0 := by norm_num
  have h1 : (((P.length : Int) + 1) - 2).toNat = P.length - 1 := by omega
  have h2 : (((P.length : Int) + 1) - 1).toNat = P.length := by omega
  simp only [hset, hps, if_pos, h1, h2]

/-- Feeding one complete encoded frame (with header bytes `f0 f1` that decode
to the frame's data length) from the initial parser state: every byte is
consumed, the only completion signal is on the final byte, and the frame sits
at the front of the buffer. -/
theorem parseRun_packet_aux (cid : Nat) (data : List Nat) (f0 f1 : Nat)
    (B : List Nat) (s q : Int) (hB : B.length = 1024)
    (hlen : data.length ≤ 1016)
    (hdec : (f0 ||| (f1 <<< 8)) >>> 6 = 1 + data.length) :
    parseRun ⟨B, s, q, .StartByte⟩
        ([0xAA, f0, f1, cid] ++ data ++
          [create_crc ([0xAA, f0, f1, cid] ++ data) % 256,
           create_crc ([0xAA, f0, f1, cid] ++ data) / 256])
      = (⟨([0xAA, f0, f1, cid] ++ data ++
            [create_crc ([0xAA, f0, f1, cid] ++ data) % 256,
             create_crc ([0xAA, f0, f1, cid] ++ data) / 256]) ++
            B.drop (6 + data.length),
          ((6 + data.length : Nat) : Int), 0, .StartByte⟩,
         List.replicate (5 + data.length) false ++ [true]) := by
  set L := data.length with hL
  set c := create_crc ([0xAA, f0, f1, cid] ++ data) with hc
  have hshape : [0xAA, f0, f1, cid] ++ data ++ [c % 256, c / 256]
      = [0xAA, f0, f1] ++ (((cid :: data) ++ [c % 256]) ++ [c / 256]) := by
    simp
  have hguard : ((f0 ||| (f1 <<< 8)) >>> 6) + 2 ≤ 1019 := by
    rw [hdec]; omega
  have h1 := parseRun_header f0 f1 B s q (by omega) hguard
  rw [show (0xAA :: f0 :: f1 :: B.drop 3 : List Nat)
      = [0xAA, f0, f1] ++ B.drop 3 from by simp] at h1
  rw [show (3 : Int) = (([0xAA, f0, f1] : List Nat).length : Int) from by
    norm_num] at h1
  rw [show ((((f0 ||| (f1 <<< 8)) >>> 6) + 2 : Nat) : Int)
      = ((((cid :: data) ++ [c % 256]).length : Nat) : Int) + 1 from by
    rw [hdec]; push_cast; simp; ring] at h1
  have h2 := parseRun_payload ((cid :: data) ++ [c % 256]) [0xAA, f0, f1]
    (B.drop 3) 1 le_rfl (by simp [hB]; omega)
  have hmidlen : ((cid :: data) ++ [c % 256]).length = L + 2 := by
    simp
  have hne : B.drop (L + 5) ≠ [] := by
    intro hcon
    have := congrArg List.length hcon
    simp [hB] at this
    omega
  obtain ⟨q1, Q1, hq1⟩ := List.exists_cons_of_ne_nil hne
  have hQ1 : Q1 = B.drop (L + 6) := by
    have := congrArg List.tail hq1
    rw [List.tail_drop] at this
    simpa [show L + 5 + 1 = L + 6 by omega] using this.symm
  have hd1 : [0xAA, f0, f1] ++ ((cid :: data) ++ [c % 256]) ++
        (B.drop 3).drop ((cid :: data) ++ [c % 256]).length
      = (([0xAA, f0, f1, cid] ++ data) ++ [c % 256]) ++ q1 :: Q1 := by
    rw [hmidlen, List.drop_drop, show 3 + (L + 2) = L + 5 by omega, hq1]
    simp
  rw [hd1] at h2
  rw [show ((([0xAA, f0, f1] : List Nat).length +
        ((cid :: data) ++ [c % 256]).length : Nat) : Int)
      = (((([0xAA, f0, f1, cid] ++ data) ++ [c % 256]).length : Nat) : Int) from by
    simp
    omega] at h2
  have h3 := parse_data_last (([0xAA, f0, f1, cid] ++ data) ++ [c % 256])
    q1 (c / 256) Q1
  have hlenA : ([0xAA, f0, f1, cid] ++ data).length = L + 4 := by
    simp
  have hA : (([0xAA, f0, f1, cid] ++ data) ++ [c % 256]).length = L + 5 := by
    simp
  have hD : (([0xAA, f0, f1, cid] ++ data) ++ [c % 256]) ++ c / 256 :: Q1
      = ([0xAA, f0, f1, cid] ++ data) ++ (c % 256 :: c / 256 :: Q1) := by
    simp
  have hget1 : ((([0xAA, f0, f1, cid] ++ data) ++ [c % 256]) ++ c / 256 :: Q1).getD
      ((([0xAA, f0, f1, cid] ++ data) ++ [c % 256]).length - 1) 0 = c % 256 := by
    rw [hA, hD, show L + 5 - 1 = L + 4 by omega]
    rw [List.getD_append_right _ _ _ _ (by rw [hlenA])]
    rw [hlenA]
    simp
  have hget2 : ((([0xAA, f0, f1, cid] ++ data) ++ [c % 256]) ++ c / 256 :: Q1).getD
      (([0xAA, f0, f1, cid] ++ data) ++ [c % 256]).length 0 = c / 256 := by
    rw [hA, hD]
    rw [List.getD_append_right _ _ _ _ (by rw [hlenA]; omega)]
    rw [hlenA]
    simp [show L + 5 - (L + 4) = 1 by omega]
  have htake : (((([0xAA, f0, f1, cid] ++ data) ++ [c % 256]) ++ c / 256 :: Q1).take
      ((([0xAA, f0, f1, cid] ++ data) ++ [c % 256]).length - 1))
      = [0xAA, f0, f1, cid] ++ data := by
    rw [hA, hD, show L + 5 - 1 = L + 4 by omega]
    exact List.take_left' (by rw [hlenA])
  rw [hget1, hget2, htake, lor_bytes, ← hc] at h3
  rw [show (decide (c = c)) = true from by simp] at h3
  rw [hshape, parseRun_append, h1]
  dsimp only
  rw [parseRun_append, h2]
  dsimp only
  have hrun1 : ∀ (r : Response) (b : Nat),
      parseRun r [b] = ((r.parse_data b).1, [(r.parse_data b).2]) := by
    intro r b
    simp [parseRun]
  rw [hrun1, h3]
  dsimp only
  simp only [Prod.mk.injEq]
  constructor
  · simp only [Response.mk.injEq, and_true]
    constructor
    · rw [hQ1]
      simp [show 6 + L = L + 6 by omega]
    · rw [hA]
      push_cast
      omega
  · rw [hmidlen]
    rw [show (5 : Nat) + L = 3 + (L + 2) by omega]
    rw [show (3 : Nat) + (L + 2) = (L + 2) + 1 + 1 + 1 by omega]
    simp [List.replicate_succ, List.replicate_add]

/-- The packet-length invariant of the encoder: total wire length is
6 + data length. -/
theorem create_packet_bytes_length (cid : Nat) (w : Bool) (data : List Nat) :
    (create_packet_bytes cid w data).length = 6 + data.length := by
  cases w <;> simp [create_packet_bytes] <;> omega

/-- The flags field built by the encoder is below 2^16, so the `u16` cast
does not truncate it. -/
theorem flags_mod_eq (data : List Nat) (hlen : data.length ≤ 1016) :
    ((1 + data.length) <<< 6) % 65536 = (1 + data.length) <<< 6 := by
  apply Nat.mod_eq_of_lt
  rw [Nat.shiftLeft_eq]
  calc (1 + data.length) * 2 ^ 6 ≤ 1017 * 2 ^ 6 := by
        apply Nat.mul_le_mul_right
        omega
    _ < 65536 := by norm_num

/-- As `flags_mod_eq`, with the write bit set. -/
theorem flags_mod_eq_write (data : List Nat) (hlen : data.length ≤ 1016) :
    (((1 + data.length) <<< 6) ||| 1) % 65536 = ((1 + data.length) <<< 6) ||| 1 := by
  apply Nat.mod_eq_of_lt
  have h1 : (1 + data.length) <<< 6 < 2 ^ 16 := by
    rw [Nat.shiftLeft_eq]
    calc (1 + data.length) * 2 ^ 6 ≤ 1017 * 2 ^ 6 := by
          apply Nat.mul_le_mul_right
          omega
      _ < 2 ^ 16 := by norm_num
  calc ((1 + data.length) <<< 6) ||| 1 < 2 ^ 16 :=
        Nat.or_lt_two_pow h1 (by norm_num)
    _ = 65536 := by norm_num

/-- Feeding one complete `create_packet_bytes` frame from the initial parser
state consumes every byte, signals completion exactly on the final byte, and
leaves the frame at the front of the buffer. -/
theorem parseRun_frame (cid : Nat) (w : Bool) (data : List Nat) (B : List Nat)
    (s q : Int) (hB : B.length = 1024) (hlen : data.length ≤ 1016) :
    parseRun ⟨B, s, q, .StartByte⟩ (create_packet_bytes cid w data)
      = (⟨create_packet_bytes cid w data ++ B.drop (6 + data.length),
          ((6 + data.length : Nat) : Int), 0, .StartByte⟩,
         List.replicate (5 + data.length) false ++ [true]) := by
  cases w with
  | false =>
    have hdec : ((((1 + data.length) <<< 6) % 65536) % 256 |||
        (((((1 + data.length) <<< 6) % 65536) / 256) <<< 8)) >>> 6
        = 1 + data.length := by
      rw [lor_bytes, flags_mod_eq data hlen, shiftLeft_shiftRight_six]
    exact parseRun_packet_aux cid data _ _ B s q hB hlen hdec
  | true =>
    have hdec : (((((1 + data.length) <<< 6) ||| 1) % 65536) % 256 |||
        ((((((1 + data.length) <<< 6) ||| 1) % 65536) / 256) <<< 8)) >>> 6
        = 1 + data.length := by
      rw [lor_bytes, flags_mod_eq_write data hlen, lor_one_shiftRight]
    exact parseRun_packet_aux cid data _ _ B s q hB hlen hdec

/-- The receive buffer of a fresh `Response` has the full 1024-byte
capacity. -/
theorem Response.new_data_length : Response.new.data.length = 1024 := by
  rw [show Response.new.data = List.replicate 1024 0 from rfl,
    List.length_replicate]

/-- The command byte sits at offset 3 of an encoded packet. -/
theorem create_packet_bytes_getD3 (cid : Nat) (w : Bool) (data : List Nat) :
    (create_packet_bytes cid w data).getD 3 0 = cid := by
  cases w <;> simp [create_packet_bytes]

/-- C1 (amended): for every command id, write flag, and payload whose data
length is at most 1016, feeding the bytes produced by `create_packet_bytes`
one at a time into a freshly reset `Response` makes `parse_data` return
`true` exactly on the final byte (the signal list over the packet's
`6 + len` bytes is `5 + len` times `false` followed by one `true`), after
which `get_command` returns the original command id and the stored bytes at
payload offset 4 equal the original payload.  (The claim's bound 1018 is
corrected to 1016: the parser's overflow guard rejects any decoded
remaining count above 1019 = data length + 3.) -/
theorem parser_roundtrip (cid : Nat) (w : Bool) (data : List Nat)
    (r : Response) (_hcid : cid < 256) (_hdata : ∀ b ∈ data, b < 256)
    (hlen : data.length ≤ 1016) (hr : r.data.length = 1024) :
    (create_packet_bytes cid w data).length = 6 + data.length
    ∧ (parseRun r.reset (create_packet_bytes cid w data)).2
        = List.replicate (5 + data.length) false ++ [true]
    ∧ (parseRun r.reset (create_packet_bytes cid w data)).1.get_command = cid
    ∧ ((parseRun r.reset (create_packet_bytes cid w data)).1.data.drop 4).take
        data.length = data := by
  rw [Response.reset_eq, parseRun_frame cid w data r.data 0 0 hr hlen]
  refine ⟨create_packet_bytes_length cid w data, rfl, ?_, ?_⟩
  · show (create_packet_bytes cid w data ++ r.data.drop (6 + data.length)).getD 3 0
      = cid
    cases w <;> simp [create_packet_bytes]
  · show ((create_packet_bytes cid w data ++
        r.data.drop (6 + data.length)).drop 4).take data.length = data
    cases w <;> simp [create_packet_bytes, List.take_left]

/-- Witness for `parser_roundtrip` at command id 1, read flag, and the empty
payload. -/
theorem parser_roundtrip_witness :
    ((1 : Nat) < 256 ∧ (∀ b ∈ ([] : List Nat), b < 256)
      ∧ ([] : List Nat).length ≤ 1016 ∧ Response.new.data.length = 1024)
    ∧ ((create_packet_bytes 1 false []).length = 6 + ([] : List Nat).length
      ∧ (parseRun Response.new.reset (create_packet_bytes 1 false [])).2
          = List.replicate (5 + ([] : List Nat).length) false ++ [true]
      ∧ (parseRun Response.new.reset (create_packet_bytes 1 false [])).1.get_command
          = 1
      ∧ ((parseRun Response.new.reset
            (create_packet_bytes 1 false [])).1.data.drop 4).take
          ([] : List Nat).length = []) :=
  ⟨⟨by decide, by simp, by decide, Response.new_data_length⟩,
    parser_roundtrip 1 false [] Response.new (by decide) (by simp) (by decide)
      Response.new_data_length⟩

set_option maxRecDepth 8000 in
/-- The CRC over the 1021-byte checksum region of a frame with 1017 zero
data bytes, evaluated in chunks. -/
theorem c1_cex_crc :
    create_crc ([0xAA, 128, 254, 0] ++ List.replicate 1017 0) = 12617 := by
  have hsplit : (1017 : Nat) = 400 + (400 + 217) := by norm_num
  rw [create_crc, hsplit, List.replicate_add, List.replicate_add,
    List.foldl_append, List.foldl_append, List.foldl_append]
  have h1 : List.foldl crcStep 0 [0xAA, 128, 254, 0] = 35145 := by decide
  have h2 : List.foldl crcStep 35145 (List.replicate 400 0) = 13542 := by decide
  have h3 : List.foldl crcStep 13542 (List.replicate 400 0) = 32322 := by decide
  have h4 : List.foldl crcStep 32322 (List.replicate 217 0) = 12617 := by decide
  rw [h1, h2, h3, h4]

set_option maxRecDepth 8000 in
/-- The encoded packet for command 0, read flag, and 1017 zero data bytes,
in explicit form. -/
theorem c1_cex_packet :
    create_packet_bytes 0 false (List.replicate 1017 0)
      = [0xAA, 128, 254] ++ (0 :: (List.replicate 1017 0 ++ [73, 49])) := by
  simp only [create_packet_bytes, List.length_replicate]
  rw [show ((1 + 1017 : Nat) <<< 6) % 65536 = 65152 from by norm_num [Nat.shiftLeft_eq]]
  rw [show (65152 : Nat) % 256 = 128 from by norm_num,
    show (65152 : Nat) / 256 = 254 from by norm_num]
  rw [c1_cex_crc]
  norm_num

/-- No completion signal hides in a run of `false` signals. -/
theorem count_true_replicate_false (n : Nat) :
    (List.replicate n false).count true = 0 := by
  simp [List.count_replicate]

set_option maxRecDepth 8000 in
/-- C1 counterexample: with data length 1017 (within the claim's bound of
1018), feeding the encoded packet into a freshly reset `Response` never
makes `parse_data` return `true` — the length guard aborts the frame at its
third byte — refuting the claim that `parse_data` returns `true` on the
final byte. -/
theorem parser_roundtrip_counterexample :
    (parseRun Response.new.reset
      (create_packet_bytes 0 false (List.replicate 1017 0))).2.count true
      = 0 := by
  rw [c1_cex_packet, parseRun_append]
  have h1 : (parseRun Response.new.reset [0xAA, 128, 254]).2
      = [false, false, false] := by decide
  have h2 : (parseRun Response.new.reset [0xAA, 128, 254]).1.parse_state
      = .StartByte := by decide
  have h3 := parseRun_skip (0 :: (List.replicate 1017 0 ++ [73, 49]))
    (parseRun Response.new.reset [0xAA, 128, 254]).1 h2 (by
      intro b hb
      rcases List.mem_cons.mp hb with rfl | hb2
      · decide
      · rcases List.mem_append.mp hb2 with hb3 | hb4
        · rw [List.eq_of_mem_replicate hb3]
          decide
        · have hb5 : b = 73 ∨ b = 49 := by simpa using hb4
          omega)
  rw [h1, h3]
  rw [List.count_append, count_true_replicate_false]
  rfl

/-- C2 counterexample: the encoder's output for command id 1, read flag,
empty payload is not the spec's regression vector `AA 40 00 01 59 37`. -/
theorem packet_vector_counterexample :
    create_packet_bytes 1 false [] ≠ [0xAA, 0x40, 0x00, 0x01, 0x59, 0x37] := by
  decide

/-- C2 (amended): `create_packet_bytes` with command id 1, `write = false`,
and empty payload returns exactly the 6 bytes `AA 40 00 01 51 8F`, where the
last two bytes are the little-endian CRC16 (`create_crc`, the §4.1
algorithm) of `AA 40 00 01`, namely `0x8F51`.  (The spec's stated vector
`AA 40 00 01 59 37` has the wrong checksum bytes; the §4.1 algorithm yields
`0x8F51`, not `0x3759`.) -/
theorem packet_vector :
    create_packet_bytes 1 false [] = [0xAA, 0x40, 0x00, 0x01, 0x51, 0x8F]
    ∧ create_crc [0xAA, 0x40, 0x00, 0x01] = 0x8F51 := by
  refine ⟨by decide, by decide⟩

set_option maxRecDepth 8000 in
/-- C5 counterexample: three noise bytes that look like a frame header make
the parser swallow the following valid frame as payload of the bogus frame;
feeding noise `AA 00 01` followed by the valid frame for command 1 yields no
completion at all, refuting the claim for arbitrary noise. -/
theorem resync_counterexample :
    (parseRun Response.new.reset
      ([0xAA, 0x00, 0x01] ++ create_packet_bytes 1 false [])).2.count true
      = 0 := by
  decide

/-- C5 (amended): for noise that contains no `0xAA` start-marker byte,
feeding noise followed by a complete valid frame into a reset parser yields
exactly one completion signal, at the frame's final byte, regardless of the
noise content.  (Arbitrary noise is corrected to marker-free noise: noise
containing `0xAA` can open a bogus frame that swallows the real frame, as
the counterexample shows.) -/
theorem resync_after_noise (noise : List Nat) (cid : Nat) (w : Bool)
    (data : List Nat) (r : Response) (hnoise : ∀ b ∈ noise, b ≠ 0xAA)
    (hlen : data.length ≤ 1016) (hr : r.data.length = 1024) :
    (parseRun r.reset (noise ++ create_packet_bytes cid w data)).2
      = List.replicate (noise.length + (5 + data.length)) false ++ [true] := by
  rw [parseRun_append, parseRun_skip noise r.reset rfl hnoise]
  rw [Response.reset_eq, parseRun_frame cid w data r.data 0 0 hr hlen]
  simp [List.replicate_add]

/-- Witness for `resync_after_noise` with noise `01 02 03` before the frame
for command 7. -/
theorem resync_after_noise_witness :
    ((∀ b ∈ ([1, 2, 3] : List Nat), b ≠ 0xAA)
      ∧ ([] : List Nat).length ≤ 1016 ∧ Response.new.data.length = 1024)
    ∧ (parseRun Response.new.reset
        ([1, 2, 3] ++ create_packet_bytes 7 false [])).2
      = List.replicate (([1, 2, 3] : List Nat).length + (5 + ([] : List Nat).length))
          false ++ [true] :=
  ⟨⟨by decide, by decide, Response.new_data_length⟩,
    resync_after_noise [1, 2, 3] 7 false [] Response.new (by decide) (by decide)
      Response.new_data_length⟩

/-- `parse_data` writes the incoming byte exactly at the index given by
`parse_write_index`, and nowhere else. -/
theorem parse_data_writes (r : Response) (b : Nat) :
    (r.parse_data b).1.data =
      match parse_write_index r b with
      | none => r.data
      | some i => r.data.set i b := by
  cases hstate : r.parse_state
  case StartByte =>
    by_cases hb : b = 0xAA <;>
      simp [Response.parse_data, parse_write_index, hstate, hb]
  case PayloadSize0 =>
    simp [Response.parse_data, parse_write_index, hstate]
  case PayloadSize1 =>
    simp only [Response.parse_data, parse_write_index, hstate]
    split <;> rfl
  case Payload =>
    simp only [Response.parse_data, parse_write_index, hstate]
    split <;> rfl

/-- A reset parser satisfies the invariant. -/
theorem parserInv_reset (r : Response) (h : r.data.length = 1024) :
    ParserInv r.reset := by
  exact ⟨h, by intro hcon; exact absurd hcon (by simp [Response.reset])⟩

/-- One parser step preserves the invariant. -/
theorem parserInv_step (r : Response) (b : Nat) (h : ParserInv r) :
    ParserInv (r.parse_data b).1 := by
  obtain ⟨hlen, hpay⟩ := h
  cases hstate : r.parse_state
  case StartByte =>
    by_cases hb : b = 0xAA
    · refine ⟨by simp [Response.parse_data, hstate, hb, hlen], ?_⟩
      intro hcon
      simp [Response.parse_data, hstate, hb] at hcon
    · refine ⟨by simp [Response.parse_data, hstate, hb, hlen], ?_⟩
      intro hcon
      simp [Response.parse_data, hstate, hb] at hcon
  case PayloadSize0 =>
    refine ⟨by simp [Response.parse_data, hstate, hlen], ?_⟩
    intro hcon
    simp [Response.parse_data, hstate] at hcon
  case PayloadSize1 =>
    simp only [Response.parse_data, hstate]
    split
    · exact ⟨by simp [hlen], by intro hcon; simp at hcon⟩
    · rename_i hps
      refine ⟨by simp [hlen], ?_⟩
      intro _
      refine ⟨by norm_num, by push_cast; omega, ?_⟩
      push_cast at hps ⊢
      omega
  case Payload =>
    have hp := hpay hstate
    simp only [Response.parse_data, hstate]
    split
    · exact ⟨by simp [hlen], by intro hcon; simp at hcon⟩
    · rename_i hps
      refine ⟨by simp [hlen], ?_⟩
      intro _
      dsimp only
      refine ⟨by omega, by omega, by omega⟩

/-- A whole parser run preserves the invariant. -/
theorem parserInv_run (bs : List Nat) (r : Response) (h : ParserInv r) :
    ParserInv (parseRun r bs).1 := by
  induction bs generalizing r with
  | nil => simpa [parseRun] using h
  | cons b bs ih =>
    simp only [parseRun]
    exact ih _ (parserInv_step r b h)

/-- Under the invariant, every buffer write lands inside the 1024-byte
buffer. -/
theorem parse_write_index_lt (r : Response) (b : Nat) (i : Nat)
    (h : ParserInv r) (hw : parse_write_index r b = some i) : i < 1024 := by
  obtain ⟨hlen, hpay⟩ := h
  unfold parse_write_index at hw
  cases hstate : r.parse_state <;> rw [hstate] at hw
  · by_cases hb : b = 0xAA
    · simp [hb] at hw
      omega
    · simp [hb] at hw
  · simp at hw
    omega
  · simp at hw
    omega
  · have hp := hpay hstate
    simp at hw
    omega

/-- C3: length guard and buffer safety.  (1) When the two stored length
bytes decode (via `((low | high<<8) >> 6) + 2`) to a remaining count above
1019, `parse_data` returns the parser to `StartByte` without signaling
completion, and in that state any byte other than the start marker leaves
the parser unchanged, so no subsequent byte is stored as payload of the
malformed frame.  (2) Every buffer write of `parse_data` is at the index
`parse_write_index` reports.  (3) Starting from any reset 1024-byte
`Response`, every write index produced along any byte stream stays below
1024, so `parse_data` never writes outside its buffer. -/
theorem parser_length_guard_and_bounds :
    (∀ (r : Response) (b : Nat), r.parse_state = .PayloadSize1 →
      1019 < decodedRemaining (r.data.set 2 b) →
      (r.parse_data b).1.parse_state = .StartByte
      ∧ (r.parse_data b).2 = false
      ∧ ∀ c : Nat, c ≠ 0xAA →
          (r.parse_data b).1.parse_data c = ((r.parse_data b).1, false))
    ∧ (∀ (r : Response) (b : Nat),
        (r.parse_data b).1.data =
          match parse_write_index r b with
          | none => r.data
          | some i => r.data.set i b)
    ∧ ∀ (r0 : Response) (bs : List Nat) (b : Nat) (i : Nat),
        r0.data.length = 1024 →
        parse_write_index (parseRun r0.reset bs).1 b = some i → i < 1024 := by
  refine ⟨?_, parse_data_writes, ?_⟩
  · intro r b hstate hdec
    have hstep : r.parse_data b
        = ({ r with data := r.data.set 2 b, size := 3, payload_size := (decodedRemaining (r.data.set 2 b) : Int), parse_state := .StartByte }, false) := by
      simp only [Response.parse_data, hstate]
      split
      · rfl
      · rename_i hcon
        exact absurd (by exact_mod_cast hdec) hcon
    rw [hstep]
    refine ⟨rfl, rfl, ?_⟩
    intro c hc
    simp [Response.parse_data, hc]
  · intro r0 bs b i h0 hw
    exact parse_write_index_lt _ b i
      (parserInv_run bs _ (parserInv_reset r0 h0)) hw

set_option maxRecDepth 8000 in
/-- Witness for `parser_length_guard_and_bounds`: a parser in the
length-byte state fed a high byte `0xFF` decodes a remaining count of 1022
and aborts, and the write-bound instance at a fresh parser. -/
theorem parser_length_guard_witness :
    ((Response.mk (List.replicate 1024 0) 0 0 .PayloadSize1).parse_data
        255).1.parse_state = .StartByte
    ∧ ((Response.mk (List.replicate 1024 0) 0 0 .PayloadSize1).parse_data
        255).2 = false
    ∧ (0 : Nat) < 1024 :=
  ⟨(parser_length_guard_and_bounds.1 _ 255 rfl (by decide)).1,
   (parser_length_guard_and_bounds.1 _ 255 rfl (by decide)).2.1,
   parser_length_guard_and_bounds.2.2 Response.new [] 0xAA 0
     Response.new_data_length (by decide)⟩

/-- Splitting a match scan over a prefix whose parser run signals completion
exactly at its last byte: if the command there matches, the scan stops at
the prefix's end; otherwise it continues into the remainder from the
prefix's final parser state. -/
theorem firstMatch_of_signals (cid : Nat) (xs : List Nat) :
    ∀ (r : Response) (rest : List Nat) (n : Nat),
      xs.length = n + 1 →
      (parseRun r xs).2 = List.replicate n false ++ [true] →
      firstMatch cid r (xs ++ rest)
        = if (parseRun r xs).1.get_command = cid
          then some ((parseRun r xs).1, xs.length)
          else (firstMatch cid (parseRun r xs).1 rest).map
            (fun p => (p.1, p.2 + xs.length)) := by
  induction xs with
  | nil =>
    intro r rest n hn
    simp at hn
  | cons b xs ih =>
    intro r rest n hlen hsig
    cases n with
    | zero =>
      have hxs : xs = [] := by
        have : xs.length = 0 := by simpa using hlen
        exact List.eq_nil_of_length_eq_zero this
      subst hxs
      have hs2 : (r.parse_data b).2 = true := by
        simpa [parseRun] using hsig
      by_cases hc : (r.parse_data b).1.get_command = cid
      · simp [firstMatch, parseRun, hs2, hc]
      · simp [firstMatch, parseRun, hs2, hc]
    | succ n' =>
      have hlen' : xs.length = n' + 1 := by simpa using hlen
      have hsig' : (r.parse_data b).2 = false ∧
          (parseRun (r.parse_data b).1 xs).2
            = List.replicate n' false ++ [true] := by
        have := hsig
        simp only [parseRun, List.replicate_succ, List.cons_append] at this
        exact ⟨by simpa using congrArg (fun l => l.headD true) this,
               by simpa using congrArg List.tail this⟩
      have hrw := ih (r.parse_data b).1 rest n' hlen' hsig'.2
      have hstep : firstMatch cid r ((b :: xs) ++ rest)
          = (firstMatch cid (r.parse_data b).1 (xs ++ rest)).map
              (fun p => (p.1, p.2 + 1)) := by
        simp [firstMatch, hsig'.1]
      rw [hstep, hrw]
      have hfinal : (parseRun r (b :: xs)).1 = (parseRun (r.parse_data b).1 xs).1 := by
        simp [parseRun]
      rw [hfinal]
      by_cases hc : (parseRun (r.parse_data b).1 xs).1.get_command = cid
      · simp [hc, hlen']
      · simp only [hc, if_false, Option.map_map]
        have hcomp : ((fun p : Response × Nat => (p.1, p.2 + 1)) ∘
            (fun p : Response × Nat => (p.1, p.2 + xs.length)))
            = fun p : Response × Nat => (p.1, p.2 + (b :: xs).length) := by
          funext p
          simp
          omega
        rw [hcomp]

/-- A poll whose every read returns zero bytes times out, consuming one read
per loop iteration and leaving the parser untouched. -/
theorem recv_loop_empty (p : Platform) (cid : Nat)
    (hreads : ∀ k, p.readResult k = some []) :
    ∀ (fuel : Nat) (r : Response) (st : IOState),
      recv_loop p cid r st fuel
        = (.error .PacketTimeout, r, { st with reads := st.reads + fuel }) := by
  intro fuel
  induction fuel with
  | zero =>
    intro r st
    simp [recv_loop]
  | succ fuel ih =>
    intro r st
    simp only [recv_loop, hreads st.reads]
    simp only [List.length_nil, lt_irrefl, if_false]
    rw [ih]
    have harith : st.reads + 1 + fuel = st.reads + (fuel + 1) := by omega
    simp [harith]

/-- If the transport delivers the byte stream `bs` one byte per read and the
match scan finds the first matching completion after `k` bytes, the poll
returns that parser state having consumed exactly `k` reads. -/
theorem recv_loop_firstMatch (p : Platform) (cid : Nat) (bs : List Nat) :
    ∀ (r : Response) (st : IOState) (fuel : Nat) (r' : Response) (k : Nat),
      (∀ j, j < bs.length → p.readResult (st.reads + j) = some [bs.getD j 0]) →
      firstMatch cid r bs = some (r', k) → k ≤ fuel →
      recv_loop p cid r st fuel
        = (.ok (), r', { st with reads := st.reads + k }) := by
  induction bs with
  | nil =>
    intro r st fuel r' k _ hfm _
    simp [firstMatch] at hfm
  | cons b bs ih =>
    intro r st fuel r' k hreads hfm hk
    have hread0 : p.readResult st.reads = some [b] := by
      simpa using hreads 0 (by simp)
    by_cases hcond : (r.parse_data b).2 = true ∧ (r.parse_data b).1.get_command = cid
    · have hfm' : r' = (r.parse_data b).1 ∧ k = 1 := by
        simp [firstMatch, hcond] at hfm
        exact ⟨hfm.1.symm, hfm.2.symm⟩
      obtain ⟨rfl, rfl⟩ := hfm'
      obtain ⟨fuel', rfl⟩ : ∃ f, fuel = f + 1 := ⟨fuel - 1, by omega⟩
      simp [recv_loop, hread0, hcond]
    · rcases hmap : firstMatch cid (r.parse_data b).1 bs with _ | ⟨r'', k0⟩
      · rw [firstMatch] at hfm
        simp only [hcond, if_false] at hfm
        rw [hmap] at hfm
        simp at hfm
      · rw [firstMatch] at hfm
        simp only [hcond, if_false] at hfm
        rw [hmap] at hfm
        simp at hfm
        obtain ⟨hr', hk'⟩ := hfm
        obtain ⟨fuel', rfl⟩ : ∃ f, fuel = f + 1 := ⟨fuel - 1, by omega⟩
        have hreads' : ∀ j, j < bs.length →
            p.readResult (st.reads + 1 + j) = some [bs.getD j 0] := by
          intro j hj
          have := hreads (j + 1) (by simpa using Nat.succ_lt_succ hj)
          rw [show st.reads + (j + 1) = st.reads + 1 + j by omega] at this
          simpa using this
        have hrec := ih (r.parse_data b).1 { st with reads := st.reads + 1 }
          fuel' r'' k0 hreads' hmap (by omega)
        simp only [recv_loop, hread0]
        simp only [List.getD_cons_zero, List.length_cons, Nat.zero_lt_succ,
          if_true]
        simp only [hcond, if_false]
        rw [hrec]
        rw [← hr', ← hk']
        have harith : st.reads + 1 + k0 = st.reads + (k0 + 1) := by omega
        simp [harith]

/-- When writes succeed and every read delivers zero bytes, the retry loop
performs one packet write per iteration, every poll times out, and the loop
exhausts all its iterations. -/
theorem handle_loop_exhaust (p : Platform) (cid : Nat) (packet : List Nat)
    (hreads : ∀ k, p.readResult k = some [])
    (hwrites : ∀ k, (p.writeResult k).isSome) :
    ∀ (n : Nat) (polls : Nat → Nat) (r : Response) (st : IOState),
      (handle_loop p polls cid packet r st n).1
          = .error .CommandRetriesExhausted
      ∧ (handle_loop p polls cid packet r st n).2.2.writeLog
          = st.writeLog ++ List.replicate n packet := by
  intro n
  induction n with
  | zero =>
    intro polls r st
    simp [handle_loop]
  | succ n ih =>
    intro polls r st
    obtain ⟨m, hm⟩ := Option.isSome_iff_exists.mp (hwrites st.writeLog.length)
    have hwrite : cmd_write p st packet
        = (.ok m, { st with writeLog := st.writeLog ++ [packet] }) := by
      simp [cmd_write, hm]
    have hrecv := recv_loop_empty p cid hreads (polls 0) r.reset
      { st with writeLog := st.writeLog ++ [packet] }
    simp only [handle_loop, hwrite, recv_packet, hrecv]
    have := ih (fun i => polls (i + 1)) r.reset
      { st with writeLog := st.writeLog ++ [packet],
                reads := st.reads + polls 0 }
    refine ⟨this.1, ?_⟩
    rw [this.2]
    simp [List.replicate_succ]

/-- C4: for every session whose transport reads always succeed with zero
bytes (and whose writes succeed), `handle_managed_cmd` returns
`CommandRetriesExhausted` after performing exactly `command_retries`
transport writes of the encoded packet — the write log grows by precisely
`command_retries` copies of the packet, no fewer and no more, for any
per-attempt poll budgets. -/
theorem retries_exhausted_write_count (p : Platform) (polls : Nat → Nat)
    (cid : Nat) (w : Bool) (wdata : List Nat) (command_retries : Int)
    (r : Response) (st : IOState)
    (hreads : ∀ k, p.readResult k = some [])
    (hwrites : ∀ k, (p.writeResult k).isSome)
    (hretries : 0 ≤ command_retries) (hlog : st.writeLog = []) :
    (handle_managed_cmd p polls cid w wdata command_retries r st).1
        = .error .CommandRetriesExhausted
    ∧ (handle_managed_cmd p polls cid w wdata command_retries r st).2.2.writeLog
        = List.replicate command_retries.toNat (create_packet_bytes cid w wdata)
    ∧ (command_retries.toNat : Int) = command_retries := by
  have h := handle_loop_exhaust p cid (create_packet_bytes cid w wdata) hreads
    hwrites command_retries.toNat polls r st
  refine ⟨h.1, ?_, by omega⟩
  unfold handle_managed_cmd
  rw [h.2, hlog]
  simp

/-- Witness for `retries_exhausted_write_count`: a transport whose reads
always return zero bytes and whose writes report 6 bytes, with the default
retry count 4. -/
theorem retries_exhausted_write_count_witness :
    (handle_managed_cmd ⟨fun _ => some 6, fun _ => some []⟩ (fun _ => 1) 3
        false [] 4 Response.new ⟨[], 0⟩).1 = .error .CommandRetriesExhausted
    ∧ (handle_managed_cmd ⟨fun _ => some 6, fun _ => some []⟩ (fun _ => 1) 3
        false [] 4 Response.new ⟨[], 0⟩).2.2.writeLog
        = List.replicate (4 : Int).toNat (create_packet_bytes 3 false [])
    ∧ ((4 : Int).toNat : Int) = 4 :=
  retries_exhausted_write_count ⟨fun _ => some 6, fun _ => some []⟩
    (fun _ => 1) 3 false [] 4 Response.new ⟨[], 0⟩ (fun _ => rfl) (fun _ => rfl)
    (by norm_num) rfl

set_option maxRecDepth 8000 in
/-- C6 counterexample: a transport whose `write_callback` returns `Ok(0)`
for the 6-byte packet (a partial write reported as success) is not surfaced
as a `WriteError`: `cmd_write` passes the count through as success, and the
dispatcher runs its full retry loop and returns `CommandRetriesExhausted`,
never `WriteError`. -/
theorem unchecked_short_write_counterexample :
    (cmd_write ⟨fun _ => some 0, fun _ => some []⟩ ⟨[], 0⟩
        (create_packet_bytes 1 false [])).1 = .ok 0
    ∧ (create_packet_bytes 1 false []).length = 6
    ∧ (handle_managed_cmd ⟨fun _ => some 0, fun _ => some []⟩ (fun _ => 0) 1
        false [] 1 Response.new ⟨[], 0⟩).1 = .error .CommandRetriesExhausted
    ∧ (handle_managed_cmd ⟨fun _ => some 0, fun _ => some []⟩ (fun _ => 0) 1
        false [] 1 Response.new ⟨[], 0⟩).1 ≠ .error .WriteError := by
  refine ⟨by decide, by decide, by decide, by decide⟩

/-- C6 (amended): the dispatcher surfaces `WriteError` exactly when the
transport's `write_callback` returns an error; a success return is passed
through with its byte count unchecked — a partial write reported as success
is treated as a successful command write (the transport contract, not the
core, requires writes to complete fully or fail). -/
theorem write_error_surfacing (p : Platform) (st : IOState)
    (buffer : List Nat) :
    (p.writeResult st.writeLog.length = none →
      (cmd_write p st buffer).1 = .error .WriteError)
    ∧ (∀ n, p.writeResult st.writeLog.length = some n →
      (cmd_write p st buffer).1 = .ok n)
    ∧ ∀ (polls : Nat → Nat) (cid : Nat) (w : Bool) (wd : List Nat)
        (command_retries : Int) (r : Response),
        p.writeResult st.writeLog.length = none → 1 ≤ command_retries →
        (handle_managed_cmd p polls cid w wd command_retries r st).1
          = .error .WriteError := by
  refine ⟨?_, ?_, ?_⟩
  · intro h
    simp [cmd_write, h]
  · intro n h
    simp [cmd_write, h]
  · intro polls cid w wd command_retries r h hret
    obtain ⟨m, hm⟩ : ∃ m, command_retries.toNat = m + 1 :=
      ⟨command_retries.toNat - 1, by omega⟩
    unfold handle_managed_cmd
    rw [hm]
    have hwrite : cmd_write p st (create_packet_bytes cid w wd)
        = (.error .WriteError,
           { st with writeLog := st.writeLog ++ [create_packet_bytes cid w wd] }) := by
      simp [cmd_write, h]
    simp [handle_loop, hwrite]

/-- Witness for `write_error_surfacing`: a failing write surfaces
`WriteError` from `cmd_write` and from the dispatcher; a zero-count success
is passed through. -/
theorem write_error_surfacing_witness :
    ((cmd_write ⟨fun _ => none, fun _ => some []⟩ ⟨[], 0⟩ [1, 2]).1
        = .error .WriteError)
    ∧ ((cmd_write ⟨fun _ => some 0, fun _ => some []⟩ ⟨[], 0⟩ [1, 2]).1
        = .ok 0)
    ∧ (handle_managed_cmd ⟨fun _ => none, fun _ => some []⟩ (fun _ => 1) 9
        false [] 4 Response.new ⟨[], 0⟩).1 = .error .WriteError :=
  ⟨(write_error_surfacing ⟨fun _ => none, fun _ => some []⟩ ⟨[], 0⟩ [1, 2]).1
      rfl,
   (write_error_surfacing ⟨fun _ => some 0, fun _ => some []⟩ ⟨[], 0⟩
      [1, 2]).2.1 0 rfl,
   (write_error_surfacing ⟨fun _ => none, fun _ => some []⟩ ⟨[], 0⟩ [1, 2]).2.2
      (fun _ => 1) 9 false [] 4 Response.new rfl (by norm_num)⟩

/-- C7: if within one poll's budget the transport delivers a checksum-valid
frame for a different command id followed by a checksum-valid frame for the
requested id, `recv_packet` returns success with the second frame's payload
stored in the `Response` (its command byte is the requested id and the
bytes at payload offset 4 are the second frame's data), the mismatched frame
having produced neither a success nor an error: both frames are consumed
within the single successful poll. -/
theorem recv_mismatched_then_matching (p : Platform) (cid cid2 : Nat)
    (w1 w2 : Bool) (dataA dataB : List Nat) (r : Response) (st : IOState)
    (fuel : Nat) (hne : cid2 ≠ cid) (hlenA : dataA.length ≤ 1016)
    (hlenB : dataB.length ≤ 1016) (hr : r.data.length = 1024)
    (hreads : ∀ j, j < (create_packet_bytes cid2 w1 dataA
          ++ create_packet_bytes cid w2 dataB).length →
        p.readResult (st.reads + j)
          = some [(create_packet_bytes cid2 w1 dataA
              ++ create_packet_bytes cid w2 dataB).getD j 0])
    (hfuel : (create_packet_bytes cid2 w1 dataA
        ++ create_packet_bytes cid w2 dataB).length ≤ fuel) :
    recv_packet p cid r st fuel
      = (.ok (),
         (parseRun r.reset (create_packet_bytes cid2 w1 dataA
            ++ create_packet_bytes cid w2 dataB)).1,
         { st with reads := st.reads + (create_packet_bytes cid2 w1 dataA
            ++ create_packet_bytes cid w2 dataB).length })
    ∧ ((parseRun r.reset (create_packet_bytes cid2 w1 dataA
          ++ create_packet_bytes cid w2 dataB)).1.data.drop 4).take
        dataB.length = dataB
    ∧ (parseRun r.reset (create_packet_bytes cid2 w1 dataA
        ++ create_packet_bytes cid w2 dataB)).1.get_command = cid := by
  have hframeA := parseRun_frame cid2 w1 dataA r.data 0 0 hr hlenA
  have hEAlen : (create_packet_bytes cid2 w1 dataA
      ++ r.data.drop (6 + dataA.length)).length = 1024 := by
    simp [create_packet_bytes_length, hr]
    omega
  have hframeB := parseRun_frame cid w2 dataB
    (create_packet_bytes cid2 w1 dataA ++ r.data.drop (6 + dataA.length))
    ((6 + dataA.length : Nat) : Int) 0 hEAlen hlenB
  have hlA : (create_packet_bytes cid2 w1 dataA).length = 6 + dataA.length :=
    create_packet_bytes_length cid2 w1 dataA
  have hlB : (create_packet_bytes cid w2 dataB).length = 6 + dataB.length :=
    create_packet_bytes_length cid w2 dataB
  have hfmB := firstMatch_of_signals cid (create_packet_bytes cid w2 dataB)
    ⟨create_packet_bytes cid2 w1 dataA ++ r.data.drop (6 + dataA.length),
      ((6 + dataA.length : Nat) : Int), 0, .StartByte⟩ [] (5 + dataB.length)
    (by rw [hlB]; omega)
    (by rw [hframeB])
  rw [List.append_nil, hframeB] at hfmB
  have hcmdB : (⟨create_packet_bytes cid w2 dataB
      ++ (create_packet_bytes cid2 w1 dataA
          ++ r.data.drop (6 + dataA.length)).drop (6 + dataB.length),
      ((6 + dataB.length : Nat) : Int), 0, .StartByte⟩ : Response).get_command
      = cid := by
    cases w2 <;> simp [create_packet_bytes, Response.get_command]
  rw [if_pos hcmdB, hlB] at hfmB
  have hfmA := firstMatch_of_signals cid (create_packet_bytes cid2 w1 dataA)
    r.reset (create_packet_bytes cid w2 dataB) (5 + dataA.length)
    (by rw [hlA]; omega)
    (by rw [Response.reset_eq, hframeA])
  rw [Response.reset_eq, hframeA] at hfmA
  have hcmdA : (⟨create_packet_bytes cid2 w1 dataA
      ++ r.data.drop (6 + dataA.length),
      ((6 + dataA.length : Nat) : Int), 0, .StartByte⟩ : Response).get_command
      = cid2 := by
    cases w1 <;> simp [create_packet_bytes, Response.get_command]
  rw [hcmdA, if_neg hne, hfmB] at hfmA
  simp only [Option.map_some'] at hfmA
  have hrun : (parseRun r.reset (create_packet_bytes cid2 w1 dataA
      ++ create_packet_bytes cid w2 dataB)).1
      = ⟨create_packet_bytes cid w2 dataB
          ++ (create_packet_bytes cid2 w1 dataA
              ++ r.data.drop (6 + dataA.length)).drop (6 + dataB.length),
          ((6 + dataB.length : Nat) : Int), 0, .StartByte⟩ := by
    rw [parseRun_append, Response.reset_eq, hframeA]
    dsimp only
    rw [hframeB]
  have hrecv := recv_loop_firstMatch p cid
    (create_packet_bytes cid2 w1 dataA ++ create_packet_bytes cid w2 dataB)
    r.reset st fuel _ _ hreads hfmA (by
      rw [List.length_append, hlA, hlB] at hfuel
      omega)
  refine ⟨?_, ?_, ?_⟩
  · rw [recv_packet, hrecv, hrun]
    have harith : st.reads
        + (6 + dataB.length + (create_packet_bytes cid2 w1 dataA).length)
        = st.reads + (create_packet_bytes cid2 w1 dataA
            ++ create_packet_bytes cid w2 dataB).length := by
      rw [List.length_append, hlA, hlB]
      omega
    rw [harith]
  · rw [hrun]
    cases w2 <;> simp [create_packet_bytes, List.take_left]
  · rw [hrun]
    exact hcmdB

set_option maxRecDepth 8000 in
/-- Witness for `recv_mismatched_then_matching`: a frame for command 2
followed by a frame for command 1, with command 1 requested. -/
theorem recv_mismatched_then_matching_witness :
    recv_packet
        ⟨fun _ => some 6,
         fun k => some [(create_packet_bytes 2 false []
            ++ create_packet_bytes 1 false []).getD k 0]⟩ 1 Response.new
        ⟨[], 0⟩ 12
      = (.ok (),
         (parseRun Response.new.reset (create_packet_bytes 2 false []
            ++ create_packet_bytes 1 false [])).1,
         { (⟨[], 0⟩ : IOState) with reads := 0 + (create_packet_bytes 2 false []
            ++ create_packet_bytes 1 false []).length })
    ∧ ((parseRun Response.new.reset (create_packet_bytes 2 false []
          ++ create_packet_bytes 1 false [])).1.data.drop 4).take
        ([] : List Nat).length = []
    ∧ (parseRun Response.new.reset (create_packet_bytes 2 false []
        ++ create_packet_bytes 1 false [])).1.get_command = 1 :=
  recv_mismatched_then_matching _ 1 2 false false [] [] Response.new ⟨[], 0⟩
    12 (by decide) (by decide) (by decide) Response.new_data_length
    (fun j _ => by simp) (by decide)

/-- Every index of the fresh zero buffer reads back zero. -/
theorem getD_replicate_zero (n i : Nat) :
    (List.replicate n (0 : Nat)).getD i 0 = 0 := by
  induction n generalizing i with
  | zero => simp
  | succ n ih =>
    cases i with
    | zero => simp [List.replicate_succ]
    | succ i => simp [List.replicate_succ, ih]

set_option maxRecDepth 8000 in
/-- Bytes 6 onward of a fresh `Response` buffer are the 1018 zero bytes of
its initial state. -/
theorem Response.new_data_drop6 :
    Response.new.data.drop 6 = List.replicate 1018 0 := rfl

set_option maxRecDepth 8000 in
/-- C10: the dispatcher's success criterion never checks the matched frame's
payload length against the four bytes `cmd_read_u32` decodes; when the
transport delivers a checksum-valid matching frame with an empty data
section (6 bytes in total), `cmd_read_u32` returns `Ok` with a value built
from the frame's two trailing checksum bytes (little-endian) and two zero
bytes from the fresh `Response`'s initial buffer — which is exactly the
frame's CRC16 value, not device data. -/
theorem read_u32_short_frame (p : Platform) (polls : Nat → Nat) (cid : Nat)
    (w : Bool) (command_retries : Int) (st : IOState) (_hcid : cid < 256)
    (hreads : ∀ j, j < (create_packet_bytes cid w []).length →
      p.readResult (st.reads + j) = some [(create_packet_bytes cid w []).getD j 0])
    (hwrite : (p.writeResult st.writeLog.length).isSome)
    (hpoll : 6 ≤ polls 0) (hret : 1 ≤ command_retries) :
    cmd_read_u32 p polls cid command_retries st
      = (.ok (create_crc ((create_packet_bytes cid w []).take 4)),
         { st with writeLog := st.writeLog ++ [create_packet_bytes cid false []],
                   reads := st.reads + 6 }) := by
  have hframe := parseRun_frame cid w [] Response.new.data 0 0
    Response.new_data_length (by norm_num)
  simp only [List.length_nil, Nat.add_zero] at hframe
  have hl6 : (create_packet_bytes cid w []).length = 6 := by
    rw [create_packet_bytes_length]
    simp
  have hfm := firstMatch_of_signals cid (create_packet_bytes cid w [])
    ⟨Response.new.data, 0, 0, .StartByte⟩ [] 5 (by rw [hl6])
    (by rw [hframe])
  rw [List.append_nil, hframe] at hfm
  have hcmd : (⟨create_packet_bytes cid w [] ++ Response.new.data.drop 6,
      ((6 : Nat) : Int), 0, .StartByte⟩ : Response).get_command = cid := by
    cases w <;> simp [create_packet_bytes, Response.get_command]
  rw [if_pos hcmd, hl6] at hfm
  obtain ⟨m, hm⟩ := Option.isSome_iff_exists.mp hwrite
  obtain ⟨n', hn'⟩ : ∃ n', command_retries.toNat = n' + 1 :=
    ⟨command_retries.toNat - 1, by omega⟩
  have hwr : cmd_write p st (create_packet_bytes cid false [])
      = (.ok m, { st with writeLog :=
          st.writeLog ++ [create_packet_bytes cid false []] }) := by
    simp [cmd_write, hm]
  have hrecv := recv_loop_firstMatch p cid (create_packet_bytes cid w [])
    ⟨Response.new.data, 0, 0, .StartByte⟩
    { st with writeLog := st.writeLog ++ [create_packet_bytes cid false []] }
    (polls 0) _ 6
    (fun j hj => by simpa using hreads j (by rwa [hl6] at hj))
    hfm (by omega)
  have hg6 : Response.new.data[6]?.getD 0 = 0 := by
    rw [← List.getD_eq_getElem?_getD]
    rw [show Response.new.data = List.replicate 1024 0 from rfl]
    exact getD_replicate_zero 1024 6
  have hg7 : Response.new.data[7]?.getD 0 = 0 := by
    rw [← List.getD_eq_getElem?_getD]
    rw [show Response.new.data = List.replicate 1024 0 from rfl]
    exact getD_replicate_zero 1024 7
  have hval : (⟨create_packet_bytes cid w [] ++ Response.new.data.drop 6,
      ((6 : Nat) : Int), 0, .StartByte⟩ : Response).get_uint32_data
      = create_crc ((create_packet_bytes cid w []).take 4) := by
    cases w <;>
      simp [create_packet_bytes, Response.get_uint32_data, hg6, hg7] <;>
      omega
  unfold cmd_read_u32 handle_managed_cmd
  rw [hn']
  simp only [handle_loop, hwr]
  simp only [recv_packet]
  rw [show Response.new.reset = ⟨Response.new.data, 0, 0, .StartByte⟩ from rfl]
  rw [hrecv]
  dsimp only
  rw [hval]

set_option maxRecDepth 8000 in
/-- Witness for `read_u32_short_frame`: command 3, an empty-data response
frame; the returned value is the frame's CRC. -/
theorem read_u32_short_frame_witness :
    cmd_read_u32
        ⟨fun _ => some 6,
         fun k => some [(create_packet_bytes 3 false []).getD k 0]⟩
        (fun _ => 6) 3 1 ⟨[], 0⟩
      = (.ok (create_crc ((create_packet_bytes 3 false []).take 4)),
         ⟨[] ++ [create_packet_bytes 3 false []], 0 + 6⟩) :=
  read_u32_short_frame _ (fun _ => 6) 3 false 1 ⟨[], 0⟩ (by decide)
    (fun j _ => by simp) rfl (by norm_num) (by norm_num)

/-- A scan over a window with no zero byte finds nothing, so the string
length stays at its initial value 0. -/
theorem firstZeroIdx_none_getD (l : List Nat) (h : ∀ b ∈ l, b ≠ 0) :
    (firstZeroIdx l).getD 0 = 0 := by
  rw [firstZeroIdx_eq_none l h]
  rfl

/-- C8: when a command completes with a response whose fixed 16-byte string
window (buffer bytes at offsets 4..20) contains no zero byte,
`cmd_read_string` returns `Ok` with the empty string (`str_len` keeps its
initial value 0, so zero bytes are decoded). -/
theorem read_string_no_terminator (p : Platform) (polls : Nat → Nat)
    (cid : Nat) (command_retries : Int) (st : IOState) (r' : Response)
    (st' : IOState)
    (h : handle_managed_cmd p polls cid false [] command_retries Response.new
        st = (.ok (), r', st'))
    (hwin : ∀ b ∈ (r'.data.drop 4).take 16, b ≠ 0) :
    cmd_read_string p polls cid command_retries st = (some (.ok []), st') := by
  unfold cmd_read_string
  rw [h]
  dsimp only
  rw [firstZeroIdx_none_getD _ hwin]
  simp [isValidUtf8]

set_option maxRecDepth 8000 in
/-- Witness for `read_string_no_terminator`: a response frame for command 5
carrying sixteen `0x41` bytes, so the window has no zero byte. -/
theorem read_string_no_terminator_witness :
    (∀ b ∈ (((handle_managed_cmd
          ⟨fun _ => some 6,
           fun k => some [(create_packet_bytes 5 false
              (List.replicate 16 65)).getD k 0]⟩ (fun _ => 22) 5 false [] 1
          Response.new ⟨[], 0⟩).2.1.data.drop 4).take 16), b ≠ 0)
    ∧ cmd_read_string
        ⟨fun _ => some 6,
         fun k => some [(create_packet_bytes 5 false
            (List.replicate 16 65)).getD k 0]⟩ (fun _ => 22) 5 1 ⟨[], 0⟩
      = (some (.ok []),
         (handle_managed_cmd
          ⟨fun _ => some 6,
           fun k => some [(create_packet_bytes 5 false
              (List.replicate 16 65)).getD k 0]⟩ (fun _ => 22) 5 false [] 1
          Response.new ⟨[], 0⟩).2.2) := by
  have h1 : (handle_managed_cmd
      ⟨fun _ => some 6,
       fun k => some [(create_packet_bytes 5 false
          (List.replicate 16 65)).getD k 0]⟩ (fun _ => 22) 5 false [] 1
      Response.new ⟨[], 0⟩).1 = .ok () := by decide
  refine ⟨by decide, ?_⟩
  exact read_string_no_terminator _ (fun _ => 22) 5 1 ⟨[], 0⟩ _ _
    (by rw [← h1]) (by decide)

set_option maxRecDepth 8000 in
/-- C9: `cmd_read_string` decodes through an unchecked `unwrap`: a
checksum-valid matching response whose data is `FF 00` puts a non-UTF-8 byte
before the first zero of the 16-byte window, and the decode panics (the
`none` result of the embedding) instead of returning any `LwnxError`.
Moreover every error result `cmd_read_string` does return is exactly the
dispatch loop's error (transport and retry failures) — there is no decode
error path. -/
theorem read_string_invalid_utf8 :
    (cmd_read_string
        ⟨fun _ => some 6,
         fun k => some [(create_packet_bytes 9 false [255, 0]).getD k 0]⟩
        (fun _ => 8) 9 1 ⟨[], 0⟩).1 = none
    ∧ ∀ (p : Platform) (polls : Nat → Nat) (cid : Nat)
        (command_retries : Int) (st : IOState) (e : LwnxError),
        (cmd_read_string p polls cid command_retries st).1 = some (.error e) →
        (handle_managed_cmd p polls cid false [] command_retries Response.new
          st).1 = .error e := by
  constructor
  · decide
  · intro p polls cid command_retries st e h
    unfold cmd_read_string at h
    rcases hh : handle_managed_cmd p polls cid false [] command_retries
      Response.new st with ⟨res, rr, stt⟩
    rw [hh] at h
    cases res with
    | ok u =>
      dsimp only at h
      split at h <;> simp at h
    | error e2 =>
      dsimp only at h
      simp at h
      dsimp only
      rw [h]

/-- Witness for the error-propagation part of `read_string_invalid_utf8`:
a transport whose reads fail makes `cmd_read_string` return the dispatch
loop's `ReadError`. -/
theorem read_string_invalid_utf8_witness :
    (handle_managed_cmd ⟨fun _ => some 6, fun _ => none⟩ (fun _ => 1) 2 false
      [] 1 Response.new ⟨[], 0⟩).1 = .error .ReadError :=
  read_string_invalid_utf8.2 ⟨fun _ => some 6, fun _ => none⟩ (fun _ => 1) 2 1
    ⟨[], 0⟩ .ReadError (by decide)
